import Mathlib

/-!
Verification development for the `alastlog` record-store access layer.

The definitions below are a shallow embedding of `src/lllib.c` (the paged
record store over the lastlog file) and of `check_string` from
`src/alastlog.c`.  The C module keeps its whole state in file-static
variables (`llbuf`, `num_recs`, `cur_rec`, `buf_start`, `ll_fd`); here that
state is an explicit `LL` value threaded through each operation.  The
underlying file is modelled as a length plus a byte function, and the
kernel's read offset for the descriptor is the `pos` field.  The fields
`loadPos`, `nReads` and `nSeeks` are instrumentation recording the byte
offset at which the window was last loaded and the number of `read(2)` /
`lseek(2)` calls issued; they influence no branch of the translated code.

C `int` values are modelled as `Int`.  The one place where machine-width
conversions matter is `num_recs = amt_read / LLSIZE` in `ll_reload`:
`amt_read` is `int` while `LLSIZE` is `sizeof(struct lastlog)` of type
`size_t`, so the C division happens in `size_t` after converting `amt_read`,
and the quotient is then converted back to `int`.  `reload_num_recs` models
this exactly for an LP64 platform (64-bit `size_t`, 32-bit `int`, wrap-around
conversion to `int` as gcc defines it).
-/

namespace Alastlog

/-- `NRECS` from `lllib.c`: records per window. -/
def NRECS : Nat := 512

/-- `LLSIZE = sizeof(struct lastlog)` on glibc/x86-64:
4-byte `ll_time` + 32-byte `ll_line` + 256-byte `ll_host`. -/
def LLSIZE : Nat := 292

/-- Modulus of `size_t` on LP64. -/
def sizeTMod : Nat := 2 ^ 64

/-- Modulus of `unsigned int` / wrap modulus of `int`. -/
def uintMod : Nat := 2 ^ 32

/-- First value that no longer fits in a signed 32-bit `int`. -/
def intMax : Nat := 2 ^ 31

/-- The lastlog file: a flat byte sequence, `len` bytes long.
`byte i` is the content of byte `i` (only meaningful for `i < len`). -/
structure LLFile where
  len : Nat
  byte : Nat → Nat

/-- The state of the store: the C module's static variables, the kernel
file offset `pos` of the descriptor, plus instrumentation.
`fd_ok` models `ll_fd != -1`; `osOpen` models whether the descriptor is
still valid in the kernel's table (used only by `ll_close`). -/
structure LL where
  fd_ok : Bool
  osOpen : Bool
  buf : Nat → Nat
  num_recs : Int
  cur_rec : Int
  buf_start : Int
  pos : Nat
  loadPos : Nat
  nReads : Nat
  nSeeks : Nat

/-- `ll_open`: opens the file and resets the bookkeeping.  `ok` is whether
`open(2)` succeeded.  `llbuf` is static storage, zero at program start. -/
def ll_open (ok : Bool) : LL :=
  { fd_ok := ok, osOpen := ok, buf := fun _ => 0,
    num_recs := 0, cur_rec := 0, buf_start := 0,
    pos := 0, loadPos := 0, nReads := 0, nSeeks := 0 }

/-- Conversion of a `size_t` value to `int` on LP64 (gcc semantics: wrap
mod `2^32`, values at or above `2^31` read as negative). -/
def sizeTToInt (q : Nat) : Int :=
  if q % uintMod < intMax then ((q % uintMod : Nat) : Int)
  else ((q % uintMod : Nat) : Int) - (uintMod : Int)

/-- The computation `num_recs = amt_read / LLSIZE` from `ll_reload`, with
the C conversions made explicit: `amt_read` (an `int`, already clamped to
`-1` when negative by the preceding `if`) is converted to `size_t`
(reduction mod `2^64`), divided by `LLSIZE` as an unsigned number, and the
quotient is converted back to `int`. -/
def reload_num_recs (amt_read : Int) : Int :=
  sizeTToInt (((if amt_read < 0 then -1 else amt_read) % (sizeTMod : Int)).toNat / LLSIZE)

/-- The transfer count of `read(ll_fd, llbuf, NRECS*LLSIZE)` at offset
`s.pos`: a read at or past end of file transfers 0 bytes. -/
def readAmt (f : LLFile) (s : LL) : Nat := min (NRECS * LLSIZE) (f.len - s.pos)

/-- `ll_reload` in the case where `read(2)` itself succeeds: it reads up to
`NRECS*LLSIZE` bytes from the current offset into the start of `llbuf`,
sets `num_recs` to the number of whole records read, resets `cur_rec`, and
returns `num_recs`. -/
def ll_reload (f : LLFile) (s : LL) : Int × LL :=
  (reload_num_recs (readAmt f s),
   { s with buf := fun i => if i < readAmt f s then f.byte (s.pos + i) else s.buf i,
            num_recs := reload_num_recs (readAmt f s), cur_rec := 0,
            pos := s.pos + readAmt f s, loadPos := s.pos,
            nReads := s.nReads + 1 })

/-- The byte offset `(rec / NRECS) * NRECS * LLSIZE` computed by `ll_seek`;
`rec / NRECS` in C truncates toward zero, hence `Int.tdiv`. -/
def seekOffset (rec : Int) : Int :=
  rec.tdiv (NRECS : Int) * (NRECS : Int) * (LLSIZE : Int)

/-- The state after `lseek(ll_fd, offset, SEEK_SET)` succeeded and
`buf_start` was updated, just before `ll_seek`'s reload. -/
def seekPrep (rec : Int) (s : LL) : LL :=
  { s with pos := (seekOffset rec).toNat, nSeeks := s.nSeeks + 1,
           buf_start := rec.tdiv (NRECS : Int) * (NRECS : Int) }

/-- `ll_seek` from `lllib.c`.  `lseek(2)` with a negative target offset
fails; with a non-negative one it succeeds (regular file) and only moves
the offset. -/
def ll_seek (f : LLFile) (rec : Int) (s : LL) : Int × LL :=
  if s.fd_ok = false then (-1, s)
  else if rec = s.cur_rec then (0, s)
  else if rec < s.buf_start ∨ s.buf_start + s.num_recs - 1 < rec then
    if seekOffset rec < 0 then (-1, { s with nSeeks := s.nSeeks + 1 })
    else if (ll_reload f (seekPrep rec s)).1 ≤ 0 then
      (-1, (ll_reload f (seekPrep rec s)).2)
    else
      (0, { (ll_reload f (seekPrep rec s)).2 with
            cur_rec := rec - (ll_reload f (seekPrep rec s)).2.buf_start })
  else (0, { s with cur_rec := rec - s.buf_start })

/-- The `LLSIZE` bytes of window slot `c`: what the pointer
`&llbuf[c * LLSIZE]` exposes. -/
def slotBytes (s : LL) (c : Nat) : List Nat :=
  (List.range LLSIZE).map fun k => s.buf (c * LLSIZE + k)

/-- The `LLSIZE` bytes of file record `r`. -/
def fileRec (f : LLFile) (r : Nat) : List Nat :=
  (List.range LLSIZE).map fun k => f.byte (r * LLSIZE + k)

/-- `ll_read`'s first-call check: `if (buf_start == 0 && num_recs == 0)
ll_reload();` (the return value is discarded). -/
def preload (f : LLFile) (s : LL) : LL :=
  if s.buf_start = 0 ∧ s.num_recs = 0 then (ll_reload f s).2 else s

/-- The tail of `ll_read`: hand out a pointer to slot `cur_rec` and
advance `cur_rec`. -/
def yieldRec (s : LL) : Option (List Nat) × LL :=
  (some (slotBytes s s.cur_rec.toNat), { s with cur_rec := s.cur_rec + 1 })

/-- `ll_read` from `lllib.c`: `none` models the `NULL` return, `some bs`
models a pointer to the record, snapshotted as its bytes. -/
def ll_read (f : LLFile) (s : LL) : Option (List Nat) × LL :=
  if s.fd_ok = false then (none, s)
  else if (preload f s).cur_rec = (preload f s).num_recs then
    if (ll_reload f (preload f s)).1 = 0 then (none, (ll_reload f (preload f s)).2)
    else yieldRec (ll_reload f (preload f s)).2
  else yieldRec (preload f s)

/-- `ll_close` from `lllib.c`: if `ll_fd != -1` it calls `close(ll_fd)` and
returns its result; `ll_fd` is never reset.  `close(2)` succeeds on a live
descriptor and fails with `EBADF` (-1) on one already closed. -/
def ll_close (s : LL) : Int × LL :=
  if s.fd_ok then
    ((if s.osOpen then 0 else -1), { s with osOpen := false })
  else (0, s)

/-- `check_string` from `alastlog.c`: a text field of width `size`,
modelled on byte lists.  `none` is a `NULL` pointer, which yields `""`;
otherwise, if byte `size-1` is not already the terminator it is
overwritten with the terminator. -/
def check_string (str : Option (List Nat)) (size : Nat) : List Nat :=
  match str with
  | none => []
  | some s => if s.getD (size - 1) 0 ≠ 0 then s.set (size - 1) 0 else s

/-- Operations a driver can issue after `ll_open`; identifiers are the
non-negative account ids of the public interface. -/
inductive LOp where
  | sk (rec : Nat)
  | rd

/-- One driver call, keeping only the state. -/
def step (f : LLFile) (s : LL) : LOp → LL
  | .sk r => (ll_seek f (r : Int) s).2
  | .rd => (ll_read f s).2

/-- The store state after a successful open followed by a sequence of
seek / read-next calls. -/
def runTrace (f : LLFile) (ops : List LOp) : LL :=
  ops.foldl (step f) (ll_open true)

/-- The caller-observable store state (excludes instrumentation and the
buffer, which is compared pointwise where needed). -/
def obs (s : LL) : Bool × Int × Int × Int × Nat :=
  (s.fd_ok, s.num_recs, s.cur_rec, s.buf_start, s.pos)

/-- An empty lastlog file. -/
def emptyFile : LLFile := ⟨0, fun _ => 0⟩

/-- A file of exactly 513 records whose bytes encode their record index. -/
def f513 : LLFile := ⟨513 * 292, fun i => i / 292⟩

/-- A file of exactly one record, all bytes 5. -/
def oneRec : LLFile := ⟨292, fun _ => 5⟩

/-- Sign and size bounds on the integer bookkeeping fields. -/
def Bounds (s : LL) : Prop :=
  0 ≤ s.cur_rec ∧ 0 ≤ s.buf_start ∧ 0 ≤ s.num_recs ∧ s.num_recs ≤ (NRECS : Int)

/-- The descriptor offset is page-aligned unless it sits at or past end of
file (a reload there transfers nothing). -/
def PosOk (f : LLFile) (s : LL) : Prop :=
  s.pos % LLSIZE = 0 ∨ f.len ≤ s.pos

/-- The window holds the file bytes starting at the offset of the last
reload: slot `j` is the file record `loadPos / LLSIZE + j`. -/
def SlotOk (f : LLFile) (s : LL) : Prop :=
  (0 < s.num_recs → s.loadPos % LLSIZE = 0) ∧
  ∀ j, j < s.num_recs.toNat → ∀ k, k < LLSIZE →
    s.buf (j * LLSIZE + k) = f.byte (s.loadPos + (j * LLSIZE + k))

/-- The window-contents invariant maintained by every operation. -/
def Inv (f : LLFile) (s : LL) : Prop := PosOk f s ∧ SlotOk f s

/-- C4: the code is wrong on a failed read.  `read` returning `-1` is
clamped to `-1` by `ll_reload`, but the division `amt_read / LLSIZE`
happens in `size_t`, so `num_recs` becomes
`(int)(((size_t)(-1)) / 292 mod 2^32) = 470681347`, not the 0 the spec
requires: the store then believes the window holds 470681347 records. -/
theorem C4_reload_error :
    reload_num_recs (-1) = 470681347 ∧ reload_num_recs (-1) ≠ 0 := by
  decide

/-- C6: the code is wrong on a double close.  Closing a never-opened store
returns success, and the first close of an open store returns success, but
`ll_close` never resets `ll_fd`, so a second close calls `close(2)` on the
already-closed descriptor and returns its `EBADF` failure `-1` instead of
the no-op success the spec requires. -/
theorem C6_close_behavior :
    (ll_close (ll_open false)).1 = 0 ∧
    (ll_close (ll_open true)).1 = 0 ∧
    (ll_close ((ll_close (ll_open true)).2)).1 = -1 := by
  decide

/-- C1 counterexample: the fast path compares `targetIndex` with the
buffer-relative `cur_rec`, not with `buf_start + cur_rec`.  On a 513-record
file, `ll_seek 512` loads the second page (`buf_start = 512`,
`cur_rec = 0`); `ll_seek 0` then hits the fast path (`0 = cur_rec`) and is
a no-op with no disk access even though
`startIndex + cursor = 512 ≠ 0`, falsifying the claimed equivalence. -/
theorem C1_counterexample :
    ll_seek f513 0 ((ll_seek f513 512 (ll_open true)).2)
        = (0, (ll_seek f513 512 (ll_open true)).2) ∧
    (ll_seek f513 512 (ll_open true)).2.buf_start
        + (ll_seek f513 512 (ll_open true)).2.cur_rec ≠ 0 := by
  exact ⟨rfl, by decide⟩

/-- C3 counterexample: on a 513-record file, `ll_seek 520` reloads the
final page, which holds a single record (`num_recs = 1`), yet the seek
succeeds and sets `cur_rec = 520 - 512 = 8`, so `cursor ≤ validCount`
fails: the cursor lands strictly beyond the valid region, and a subsequent
read would hand out stale buffer bytes. -/
theorem C3_counterexample :
    (ll_seek f513 520 (ll_open true)).1 = 0 ∧
    (ll_seek f513 520 (ll_open true)).2.num_recs = 1 ∧
    (ll_seek f513 520 (ll_open true)).2.cur_rec = 8 ∧
    ¬ (ll_seek f513 520 (ll_open true)).2.cur_rec
        ≤ (ll_seek f513 520 (ll_open true)).2.num_recs := by
  decide

/-- C2 counterexample: a readNext-triggered reload never updates
`buf_start`.  On a 513-record file, after `seek 511` and two reads the
window was reloaded from file offset `512 * LLSIZE` but `buf_start` is
still 0, so window slot 0 holds file record 512, not the record
`startIndex + 0 = 0` the claim requires. -/
theorem C2_counterexample :
    0 < (runTrace f513 [LOp.sk 511, LOp.rd, LOp.rd]).num_recs ∧
    (runTrace f513 [LOp.sk 511, LOp.rd, LOp.rd]).buf_start = 0 ∧
    slotBytes (runTrace f513 [LOp.sk 511, LOp.rd, LOp.rd]) 0 ≠ fileRec f513 0 := by
  decide

/-- C7 counterexample: on an empty file the first `ll_read` already
exhausts the store (`none`, two empty reloads), yet the next `ll_read`
issues two further `read(2)` calls (the first-load condition
`buf_start == 0 && num_recs == 0` retriggers, then the exhaustion check
reloads again), falsifying "without issuing further disk reads". -/
theorem C7_counterexample :
    (ll_read emptyFile (runTrace emptyFile [LOp.rd])).1 = none ∧
    (ll_read emptyFile (runTrace emptyFile [LOp.rd])).2.nReads
        = (runTrace emptyFile [LOp.rd]).nReads + 2 := by
  decide

/-- C8 counterexample: `seek 0` on a freshly opened empty file targets a
page whose aligned byte offset 0 is at end of file, yet it returns success
(0), not the claimed "no such record" error, because the fast path
`rec == cur_rec` is checked before any positioning. -/
theorem C8_counterexample :
    emptyFile.len ≤ (0 : Nat) / NRECS * NRECS * LLSIZE ∧
    (ll_seek emptyFile 0 (ll_open true)).1 = 0 := by
  decide

/-- In a state with the fast-path equality, `ll_seek` returns success and
changes nothing (helper shared by several claims). -/
theorem seek_fastpath (f : LLFile) (s : LL) (rec : Int)
    (hfd : s.fd_ok = true) (h : rec = s.cur_rec) :
    ll_seek f rec s = (0, s) := by
  simp [ll_seek, hfd, h]

/-- C10: seek can succeed for an identifier that has no record in the
file.  Whenever the requested index equals the cursor, `ll_seek` is the
identity with result 0 and touches no counter (no disk access); in
particular `seek 0` immediately after opening an empty file succeeds, and
only the following `ll_read` reports the absence by returning `none`. -/
theorem C10_fastpath_success (f : LLFile) (s : LL) (rec : Int)
    (hfd : s.fd_ok = true) (h : rec = s.cur_rec) :
    ll_seek f rec s = (0, s) ∧
    ((ll_seek emptyFile 0 (ll_open true)).1 = 0 ∧
     (ll_read emptyFile ((ll_seek emptyFile 0 (ll_open true)).2)).1 = none) :=
  ⟨seek_fastpath f s rec hfd h, by decide⟩

/-- Witness for C10 at the empty-file instance. -/
theorem C10_fastpath_success_w :
    ll_seek emptyFile 0 (ll_open true) = (0, ll_open true) ∧
    ((ll_seek emptyFile 0 (ll_open true)).1 = 0 ∧
     (ll_read emptyFile ((ll_seek emptyFile 0 (ll_open true)).2)).1 = none) :=
  C10_fastpath_success emptyFile (ll_open true) 0 rfl rfl

/-- C9: `check_string` of a `NULL` buffer is the empty string, and on a
real buffer of width at least `n` it forces a terminator at position
`n - 1` while leaving the length and every earlier byte unchanged (and is
the identity when the last byte is already a terminator). -/
theorem C9_check_string (s : List Nat) (n : Nat)
    (h1 : 0 < n) (h2 : n ≤ s.length) :
    check_string none n = [] ∧
    (check_string (some s) n).getD (n - 1) 0 = 0 ∧
    (check_string (some s) n).length = s.length ∧
    (∀ k, k < n - 1 → (check_string (some s) n).getD k 0 = s.getD k 0) ∧
    (s.getD (n - 1) 0 = 0 → check_string (some s) n = s) := by
  have hn : n - 1 < s.length := by omega
  have hcs_pos : s.getD (n - 1) 0 = 0 → check_string (some s) n = s := by
    intro h
    simp only [check_string]
    rw [if_neg]
    exact fun hc => hc h
  have hcs_neg : ¬ s.getD (n - 1) 0 = 0 →
      check_string (some s) n = s.set (n - 1) 0 := by
    intro h
    simp only [check_string]
    rw [if_pos h]
  refine ⟨rfl, ?_, ?_, ?_, hcs_pos⟩
  · by_cases h : s.getD (n - 1) 0 = 0
    · rw [hcs_pos h]; exact h
    · rw [hcs_neg h]
      simp [List.getD_eq_getElem?_getD, List.getElem?_set_self',
        List.getElem?_eq_getElem, hn]
  · by_cases h : s.getD (n - 1) 0 = 0
    · rw [hcs_pos h]
    · rw [hcs_neg h]; simp
  · intro k hk
    by_cases h : s.getD (n - 1) 0 = 0
    · rw [hcs_pos h]
    · have hne : k ≠ n - 1 := by omega
      rw [hcs_neg h]
      simp [List.getD_eq_getElem?_getD, List.getElem?_set_ne (Ne.symm hne)]

/-- Witness for C9 on a concrete two-byte field. -/
theorem C9_check_string_w :
    check_string none 2 = [] ∧
    (check_string (some [65, 66]) 2).getD 1 0 = 0 ∧
    (check_string (some [65, 66]) 2).length = [65, 66].length ∧
    (∀ k, k < 1 → (check_string (some [65, 66]) 2).getD k 0 = [65, 66].getD k 0) ∧
    ([65, 66].getD 1 0 = 0 → check_string (some [65, 66]) 2 = [65, 66]) :=
  C9_check_string [65, 66] 2 (by decide) (by decide)

/-- For a non-negative identifier the C truncating division agrees with
Nat division. -/
theorem tdiv_toNat (rec : Int) (h : 0 ≤ rec) :
    rec.tdiv (NRECS : Int) = ((rec.toNat / NRECS : Nat) : Int) := by
  rw [Int.tdiv_eq_ediv h (by exact_mod_cast Nat.zero_le NRECS)]
  conv_lhs => rw [← Int.toNat_of_nonneg h]
  exact_mod_cast rfl

/-- The seek byte offset as a natural number, for non-negative ids. -/
theorem seekOffset_eq (rec : Int) (h : 0 ≤ rec) :
    seekOffset rec = ((rec.toNat / NRECS * NRECS * LLSIZE : Nat) : Int) := by
  rw [seekOffset, tdiv_toNat rec h]
  push_cast
  ring

/-- `reload_num_recs` of a zero-byte transfer is zero. -/
theorem reload_num_recs_zero : reload_num_recs ((0 : Nat) : Int) = 0 := by
  decide

/-- C5: whenever `ll_seek` misses the fast path and the window (so a
reload is triggered), it first repositions the file offset absolutely to
byte `(rec / NRECS) * NRECS * LLSIZE` (recorded as the load offset of the
reload), sets `buf_start` to `(rec / NRECS) * NRECS`, performs exactly one
positioning call, and on success sets `cur_rec = rec - buf_start`. -/
theorem C5_seek_offset (f : LLFile) (s : LL) (rec : Int)
    (hfd : s.fd_ok = true) (hrec : 0 ≤ rec) (hne : ¬ rec = s.cur_rec)
    (hout : rec < s.buf_start ∨ s.buf_start + s.num_recs - 1 < rec) :
    (ll_seek f rec s).2.loadPos = rec.toNat / NRECS * NRECS * LLSIZE ∧
    (ll_seek f rec s).2.buf_start = ((rec.toNat / NRECS * NRECS : Nat) : Int) ∧
    (ll_seek f rec s).2.nSeeks = s.nSeeks + 1 ∧
    ((ll_seek f rec s).1 = 0 →
      (ll_seek f rec s).2.cur_rec = rec - (ll_seek f rec s).2.buf_start) := by
  have hoff := seekOffset_eq rec hrec
  have hnneg : ¬ seekOffset rec < 0 := by
    rw [hoff]
    exact not_lt.mpr (Int.natCast_nonneg _)
  have c1 : ¬ (s.fd_ok = false) := by simp [hfd]
  have hpos : (seekPrep rec s).pos = rec.toNat / NRECS * NRECS * LLSIZE := by
    show (seekOffset rec).toNat = _
    rw [hoff]
    exact Int.toNat_natCast _
  have hbs : (seekPrep rec s).buf_start = ((rec.toNat / NRECS * NRECS : Nat) : Int) := by
    show rec.tdiv (NRECS : Int) * (NRECS : Int) = _
    rw [tdiv_toNat rec hrec]
    push_cast
    ring
  unfold ll_seek
  rw [if_neg c1, if_neg hne, if_pos hout, if_neg hnneg]
  by_cases hr : (ll_reload f (seekPrep rec s)).1 ≤ 0
  · rw [if_pos hr]
    exact ⟨hpos, hbs, rfl, fun h0 => absurd h0 (show ¬ (-1 : Int) = 0 by decide)⟩
  · rw [if_neg hr]
    exact ⟨hpos, hbs, rfl, fun _ => rfl⟩

/-- Witness for C5: seek 5 from a fresh store over the 513-record file. -/
theorem C5_seek_offset_w :
    (ll_seek f513 5 (ll_open true)).2.loadPos = 5 / NRECS * NRECS * LLSIZE ∧
    (ll_seek f513 5 (ll_open true)).2.buf_start = ((5 / NRECS * NRECS : Nat) : Int) ∧
    (ll_seek f513 5 (ll_open true)).2.nSeeks = (ll_open true).nSeeks + 1 ∧
    ((ll_seek f513 5 (ll_open true)).1 = 0 →
      (ll_seek f513 5 (ll_open true)).2.cur_rec
        = 5 - (ll_seek f513 5 (ll_open true)).2.buf_start) :=
  C5_seek_offset f513 (ll_open true) 5 rfl (by decide) (by decide) (by decide)

/-- C8 (amended): whenever `ll_seek` misses the fast path and the window
and the page-aligned byte offset of the target is at or past end of file,
the reload transfers nothing, the seek fails with `-1` ("no such
record"), and the window is left empty. -/
theorem C8_seek_past_eof (f : LLFile) (s : LL) (rec : Int)
    (hfd : s.fd_ok = true) (hrec : 0 ≤ rec) (hne : ¬ rec = s.cur_rec)
    (hout : rec < s.buf_start ∨ s.buf_start + s.num_recs - 1 < rec)
    (heof : f.len ≤ rec.toNat / NRECS * NRECS * LLSIZE) :
    (ll_seek f rec s).1 = -1 ∧ (ll_seek f rec s).2.num_recs = 0 := by
  have hoff := seekOffset_eq rec hrec
  have hnneg : ¬ seekOffset rec < 0 := by
    rw [hoff]
    exact not_lt.mpr (Int.natCast_nonneg _)
  have c1 : ¬ (s.fd_ok = false) := by simp [hfd]
  have hpos : (seekPrep rec s).pos = rec.toNat / NRECS * NRECS * LLSIZE := by
    show (seekOffset rec).toNat = _
    rw [hoff]
    exact Int.toNat_natCast _
  have hamt : readAmt f (seekPrep rec s) = 0 := by
    simp only [readAmt, hpos]
    omega
  have hnum : (ll_reload f (seekPrep rec s)).2.num_recs = 0 := by
    show reload_num_recs ((readAmt f (seekPrep rec s) : Nat) : Int) = 0
    rw [hamt]
    exact reload_num_recs_zero
  have hr : (ll_reload f (seekPrep rec s)).1 ≤ 0 := le_of_eq hnum
  unfold ll_seek
  rw [if_neg c1, if_neg hne, if_pos hout, if_neg hnneg, if_pos hr]
  exact ⟨rfl, hnum⟩

/-- Witness for C8 (amended): seek 1 on a freshly opened empty file. -/
theorem C8_seek_past_eof_w :
    (ll_seek emptyFile 1 (ll_open true)).1 = -1 ∧
    (ll_seek emptyFile 1 (ll_open true)).2.num_recs = 0 :=
  C8_seek_past_eof emptyFile (ll_open true) 1 rfl (by decide) (by decide)
    (by decide) (by decide)

/-- Updating `cur_rec` is the identity exactly when the new value is the
old one. -/
theorem set_cur_eq_self (s : LL) (x : Int) :
    ({ s with cur_rec := x } : LL) = s ↔ x = s.cur_rec := by
  constructor
  · intro h
    exact congrArg LL.cur_rec h
  · intro h
    subst h
    rfl

/-- C1 (amended): for a non-negative target on an open store, `ll_seek`
is a result-0 no-op that performs no disk access exactly when the target
equals the buffer-relative `cur_rec` (the fast path, which ignores
`buf_start`), or the target lies inside the window and happens to equal
`buf_start + cur_rec`.  The claimed characterisation
`startIndex + cursor == targetIndex` is wrong in both directions once
`buf_start ≠ 0`. -/
theorem C1_noop_iff (f : LLFile) (s : LL) (rec : Int)
    (hfd : s.fd_ok = true) (hrec : 0 ≤ rec) :
    ll_seek f rec s = (0, s) ↔
      (rec = s.cur_rec ∨
       (s.buf_start ≤ rec ∧ rec ≤ s.buf_start + s.num_recs - 1 ∧
        rec = s.buf_start + s.cur_rec)) := by
  have c1 : ¬ (s.fd_ok = false) := by simp [hfd]
  by_cases h2 : rec = s.cur_rec
  · unfold ll_seek
    rw [if_neg c1, if_pos h2]
    simp [h2]
  · by_cases h3 : rec < s.buf_start ∨ s.buf_start + s.num_recs - 1 < rec
    · unfold ll_seek
      rw [if_neg c1, if_neg h2, if_pos h3]
      constructor
      · intro h
        exfalso
        by_cases h4 : seekOffset rec < 0
        · rw [if_pos h4] at h
          have h5 : ({ s with nSeeks := s.nSeeks + 1 } : LL).nSeeks = s.nSeeks :=
            congrArg (fun p : Int × LL => p.2.nSeeks) h
          have h6 : s.nSeeks + 1 = s.nSeeks := h5
          omega
        · rw [if_neg h4] at h
          by_cases h5 : (ll_reload f (seekPrep rec s)).1 ≤ 0
          · rw [if_pos h5] at h
            have h6 : (-1 : Int) = 0 := congrArg Prod.fst h
            exact absurd h6 (by decide)
          · rw [if_neg h5] at h
            have h6 : s.nReads + 1 = s.nReads :=
              congrArg (fun p : Int × LL => p.2.nReads) h
            omega
      · intro h
        rcases h with h | ⟨ha, hb, _⟩
        · exact absurd h h2
        · rcases h3 with h3 | h3 <;> omega
    · unfold ll_seek
      rw [if_neg c1, if_neg h2, if_neg h3]
      push_neg at h3
      obtain ⟨ha, hb⟩ := h3
      constructor
      · intro h
        have h9 : ({ s with cur_rec := rec - s.buf_start } : LL) = s :=
          congrArg Prod.snd h
        have h10 := (set_cur_eq_self s _).mp h9
        right
        exact ⟨ha, hb, by omega⟩
      · intro h
        rcases h with h | ⟨_, _, hc⟩
        · exact absurd h h2
        · have h11 : rec - s.buf_start = s.cur_rec := by omega
          rw [Prod.mk.injEq]
          exact ⟨rfl, (set_cur_eq_self s _).mpr h11⟩

/-- Witness for C1 (amended) at a fresh store over the empty file. -/
theorem C1_noop_iff_w :
    ll_seek emptyFile 0 (ll_open true) = (0, ll_open true) ↔
      ((0 : Int) = (ll_open true).cur_rec ∨
       ((ll_open true).buf_start ≤ 0 ∧
        (0 : Int) ≤ (ll_open true).buf_start + (ll_open true).num_recs - 1 ∧
        (0 : Int) = (ll_open true).buf_start + (ll_open true).cur_rec)) :=
  C1_noop_iff emptyFile (ll_open true) 0 rfl (by decide)

/-- `sizeTToInt` is the identity below `2^31`. -/
theorem sizeTToInt_small (q : Nat) (h : q < intMax) : sizeTToInt q = (q : Int) := by
  have h2 : q % uintMod = q := by
    apply Nat.mod_eq_of_lt
    have : intMax < uintMod := by decide
    omega
  unfold sizeTToInt
  rw [h2, if_pos h]

/-- For a successful transfer of at most a window's worth of bytes, the
modelled C division is plain truncating division. -/
theorem reload_num_recs_small (a : Nat) (h : a ≤ NRECS * LLSIZE) :
    reload_num_recs (a : Int) = ((a / LLSIZE : Nat) : Int) := by
  have hC : NRECS * LLSIZE = 149504 := rfl
  have hd : a / LLSIZE ≤ 149504 / LLSIZE := Nat.div_le_div_right (by omega)
  have hd2 : (149504 : Nat) / LLSIZE = 512 := rfl
  unfold reload_num_recs
  rw [if_neg (not_lt.mpr (Int.natCast_nonneg a))]
  have hm : (a : Int) % (sizeTMod : Int) = (a : Int) := by
    apply Int.emod_eq_of_lt (Int.natCast_nonneg a)
    have hs : sizeTMod = 18446744073709551616 := rfl
    exact_mod_cast show a < sizeTMod by omega
  rw [hm, Int.toNat_natCast]
  apply sizeTToInt_small
  have : intMax = 2147483648 := rfl
  omega

/-- The reload result, as a plain Nat division. -/
theorem reload_fst_eq (f : LLFile) (s : LL) :
    (ll_reload f s).1 = ((readAmt f s / LLSIZE : Nat) : Int) :=
  reload_num_recs_small (readAmt f s) (min_le_left _ _)

/-- The reload result is between 0 and the window capacity. -/
theorem reload_fst_bounds (f : LLFile) (s : LL) :
    0 ≤ (ll_reload f s).1 ∧ (ll_reload f s).1 ≤ (NRECS : Int) := by
  rw [reload_fst_eq]
  constructor
  · exact Int.natCast_nonneg _
  · have h1 : readAmt f s ≤ NRECS * LLSIZE := min_le_left _ _
    have h2 : readAmt f s / LLSIZE ≤ NRECS := by
      have hC : NRECS * LLSIZE = 149504 := rfl
      have hd : readAmt f s / LLSIZE ≤ 149504 / LLSIZE :=
        Nat.div_le_div_right (hC ▸ h1)
      have hd2 : (149504 : Nat) / LLSIZE = 512 := rfl
      rw [hd2] at hd
      exact hd
    exact_mod_cast h2

/-- A reload preserves the positional part of the invariant. -/
theorem reload_posOk (f : LLFile) (s : LL) (h : PosOk f s) :
    PosOk f (ll_reload f s).2 := by
  have hC : NRECS * LLSIZE = 149504 := rfl
  have hL : LLSIZE = 292 := rfl
  show (s.pos + readAmt f s) % LLSIZE = 0 ∨ f.len ≤ s.pos + readAmt f s
  unfold readAmt PosOk at *
  simp only [NRECS, LLSIZE] at *
  rcases h with h | h
  · rcases le_total (512 * 292) (f.len - s.pos) with h1 | h1
    · left
      rw [min_eq_left h1]
      omega
    · rw [min_eq_right h1]
      right
      omega
  · right
    have h0 : f.len - s.pos = 0 := by omega
    rw [h0, min_eq_right (Nat.zero_le _)]
    omega

/-- A reload establishes the window-contents part of the invariant. -/
theorem reload_slotOk (f : LLFile) (s : LL) (h : PosOk f s) :
    SlotOk f (ll_reload f s).2 := by
  have hL : LLSIZE = 292 := rfl
  have hnum : (ll_reload f s).2.num_recs.toNat = readAmt f s / LLSIZE := by
    show (ll_reload f s).1.toNat = _
    rw [reload_fst_eq, Int.toNat_natCast]
  constructor
  · intro hpos0
    show s.pos % LLSIZE = 0
    have h1 : 0 < (ll_reload f s).2.num_recs.toNat := by omega
    rw [hnum] at h1
    have h2 : LLSIZE ≤ readAmt f s := by
      by_contra hc
      push_neg at hc
      rw [Nat.div_eq_of_lt hc] at h1
      omega
    have h3 : readAmt f s ≤ f.len - s.pos := min_le_right _ _
    rcases h with h | h
    · exact h
    · omega
  · intro j hj k hk
    rw [hnum] at hj
    have h1 : (j + 1) * LLSIZE ≤ readAmt f s := by
      have h2 : j + 1 ≤ readAmt f s / LLSIZE := hj
      calc (j + 1) * LLSIZE ≤ readAmt f s / LLSIZE * LLSIZE :=
            Nat.mul_le_mul_right _ h2
        _ ≤ readAmt f s := Nat.div_mul_le_self _ _
    have h2 : j * LLSIZE + k < readAmt f s :=
      calc j * LLSIZE + k < j * LLSIZE + LLSIZE := Nat.add_lt_add_left hk _
        _ = (j + 1) * LLSIZE := by ring
        _ ≤ readAmt f s := h1
    show (if j * LLSIZE + k < readAmt f s
          then f.byte (s.pos + (j * LLSIZE + k))
          else s.buf (j * LLSIZE + k)) = f.byte (s.pos + (j * LLSIZE + k))
    rw [if_pos h2]

/-- A reload from a position satisfying `PosOk` yields an invariant
state. -/
theorem reload_inv (f : LLFile) (s : LL) (h : PosOk f s) :
    Inv f (ll_reload f s).2 :=
  ⟨reload_posOk f s h, reload_slotOk f s h⟩

/-- The state prepared by `ll_seek`'s `lseek` is page-aligned. -/
theorem seekPrep_posOk (f : LLFile) (rec : Int) (s : LL)
    (h : ¬ seekOffset rec < 0) : PosOk f (seekPrep rec s) := by
  left
  show (seekOffset rec).toNat % LLSIZE = 0
  unfold seekOffset at *
  simp only [NRECS, LLSIZE] at *
  omega

/-- `ll_seek` preserves the window-contents invariant. -/
theorem seek_inv (f : LLFile) (rec : Int) (s : LL) (h : Inv f s) :
    Inv f (ll_seek f rec s).2 := by
  unfold ll_seek
  by_cases c1 : s.fd_ok = false
  · rw [if_pos c1]; exact h
  · rw [if_neg c1]
    by_cases c2 : rec = s.cur_rec
    · rw [if_pos c2]; exact h
    · rw [if_neg c2]
      by_cases c3 : rec < s.buf_start ∨ s.buf_start + s.num_recs - 1 < rec
      · rw [if_pos c3]
        by_cases c4 : seekOffset rec < 0
        · rw [if_pos c4]; exact h
        · rw [if_neg c4]
          have hinv : Inv f (ll_reload f (seekPrep rec s)).2 :=
            reload_inv f _ (seekPrep_posOk f rec s c4)
          by_cases c5 : (ll_reload f (seekPrep rec s)).1 ≤ 0
          · rw [if_pos c5]; exact hinv
          · rw [if_neg c5]; exact hinv
      · rw [if_neg c3]; exact h

/-- `ll_read`'s first-call check preserves the invariant. -/
theorem preload_inv (f : LLFile) (s : LL) (h : Inv f s) :
    Inv f (preload f s) := by
  unfold preload
  by_cases c : s.buf_start = 0 ∧ s.num_recs = 0
  · rw [if_pos c]; exact reload_inv f s h.1
  · rw [if_neg c]; exact h

/-- `ll_read` preserves the window-contents invariant. -/
theorem read_inv (f : LLFile) (s : LL) (h : Inv f s) :
    Inv f (ll_read f s).2 := by
  unfold ll_read
  by_cases c1 : s.fd_ok = false
  · rw [if_pos c1]; exact h
  · rw [if_neg c1]
    have h1 := preload_inv f s h
    by_cases c2 : (preload f s).cur_rec = (preload f s).num_recs
    · rw [if_pos c2]
      have h2 : Inv f (ll_reload f (preload f s)).2 := reload_inv f _ h1.1
      by_cases c3 : (ll_reload f (preload f s)).1 = 0
      · rw [if_pos c3]; exact h2
      · rw [if_neg c3]; exact h2
    · rw [if_neg c2]; exact h1

/-- A fresh store satisfies the invariant. -/
theorem inv_open (f : LLFile) : Inv f (ll_open true) := by
  refine ⟨Or.inl rfl, fun h => absurd h (by decide), fun j hj k _ => ?_⟩
  exact absurd hj (Nat.not_lt_zero j)

/-- Fold preservation along a trace. -/
theorem foldl_pres (f : LLFile) (P : LL → Prop)
    (hstep : ∀ s o, P s → P (step f s o)) :
    ∀ (ops : List LOp) (s : LL), P s → P (ops.foldl (step f) s) := by
  intro ops
  induction ops with
  | nil => intro s h; exact h
  | cons o ops ih => intro s h; exact ih _ (hstep s o h)

/-- Every state reachable from a successful open satisfies the
invariant. -/
theorem trace_inv (f : LLFile) (ops : List LOp) : Inv f (runTrace f ops) := by
  unfold runTrace
  refine foldl_pres f (Inv f) ?_ ops (ll_open true) (inv_open f)
  intro s o h
  cases o with
  | sk r => exact seek_inv f _ s h
  | rd => exact read_inv f s h

/-- A reload keeps the bookkeeping fields in bounds. -/
theorem reload_bounds (f : LLFile) (s : LL) (h : Bounds s) :
    Bounds (ll_reload f s).2 := by
  obtain ⟨h1, h2, h3, h4⟩ := h
  have hb := reload_fst_bounds f s
  exact ⟨le_refl 0, h2, hb.1, hb.2⟩

/-- `ll_seek` with a non-negative identifier keeps the bookkeeping fields
in bounds. -/
theorem seek_bounds (f : LLFile) (rec : Int) (s : LL)
    (hrec : 0 ≤ rec) (h : Bounds s) : Bounds (ll_seek f rec s).2 := by
  obtain ⟨h1, h2, h3, h4⟩ := h
  obtain ⟨m, rfl⟩ := Int.eq_ofNat_of_zero_le hrec
  have htd : (m : Int).tdiv (NRECS : Int) = ((m / NRECS : Nat) : Int) := by
    rw [tdiv_toNat _ (Int.natCast_nonneg m), Int.toNat_natCast]
  unfold ll_seek
  by_cases c1 : s.fd_ok = false
  · rw [if_pos c1]; exact ⟨h1, h2, h3, h4⟩
  · rw [if_neg c1]
    by_cases c2 : (m : Int) = s.cur_rec
    · rw [if_pos c2]; exact ⟨h1, h2, h3, h4⟩
    · rw [if_neg c2]
      by_cases c3 : (m : Int) < s.buf_start ∨ s.buf_start + s.num_recs - 1 < (m : Int)
      · rw [if_pos c3]
        by_cases c4 : seekOffset (m : Int) < 0
        · rw [if_pos c4]; exact ⟨h1, h2, h3, h4⟩
        · rw [if_neg c4]
          have hb := reload_fst_bounds f (seekPrep (m : Int) s)
          have hbs2 : 0 ≤ (ll_reload f (seekPrep (m : Int) s)).2.buf_start := by
            show 0 ≤ (m : Int).tdiv (NRECS : Int) * (NRECS : Int)
            rw [htd]
            exact mul_nonneg (Int.natCast_nonneg _) (Int.natCast_nonneg _)
          by_cases c5 : (ll_reload f (seekPrep (m : Int) s)).1 ≤ 0
          · rw [if_pos c5]
            exact ⟨le_refl 0, hbs2, hb.1, hb.2⟩
          · rw [if_neg c5]
            refine ⟨?_, hbs2, hb.1, hb.2⟩
            show 0 ≤ (m : Int) - (m : Int).tdiv (NRECS : Int) * (NRECS : Int)
            rw [htd, ← Nat.cast_mul]
            have hle : m / NRECS * NRECS ≤ m := Nat.div_mul_le_self m NRECS
            omega
      · rw [if_neg c3]
        push_neg at c3
        refine ⟨?_, h2, h3, h4⟩
        show 0 ≤ (m : Int) - s.buf_start
        have := c3.1
        omega

/-- The first-call check keeps the bookkeeping fields in bounds. -/
theorem preload_bounds (f : LLFile) (s : LL) (h : Bounds s) :
    Bounds (preload f s) := by
  unfold preload
  by_cases c : s.buf_start = 0 ∧ s.num_recs = 0
  · rw [if_pos c]; exact reload_bounds f s h
  · rw [if_neg c]; exact h

/-- `ll_read` keeps the bookkeeping fields in bounds. -/
theorem read_bounds (f : LLFile) (s : LL) (h : Bounds s) :
    Bounds (ll_read f s).2 := by
  unfold ll_read
  by_cases c1 : s.fd_ok = false
  · rw [if_pos c1]; exact h
  · rw [if_neg c1]
    have hp := preload_bounds f s h
    by_cases c2 : (preload f s).cur_rec = (preload f s).num_recs
    · rw [if_pos c2]
      have hb := reload_bounds f (preload f s) hp
      by_cases c3 : (ll_reload f (preload f s)).1 = 0
      · rw [if_pos c3]; exact hb
      · rw [if_neg c3]
        obtain ⟨b1, b2, b3, b4⟩ := hb
        refine ⟨?_, b2, b3, b4⟩
        show 0 ≤ (ll_reload f (preload f s)).2.cur_rec + 1
        omega
    · rw [if_neg c2]
      obtain ⟨b1, b2, b3, b4⟩ := hp
      refine ⟨?_, b2, b3, b4⟩
      show 0 ≤ (preload f s).cur_rec + 1
      omega

/-- A fresh store has its bookkeeping fields in bounds. -/
theorem bounds_open : Bounds (ll_open true) :=
  ⟨le_refl 0, le_refl 0, le_refl 0, by decide⟩

/-- Every reachable state has its bookkeeping fields in bounds. -/
theorem trace_bounds (f : LLFile) (ops : List LOp) :
    Bounds (runTrace f ops) := by
  unfold runTrace
  refine foldl_pres f Bounds ?_ ops (ll_open true) bounds_open
  intro s o h
  cases o with
  | sk r => exact seek_bounds f _ s (Int.natCast_nonneg r) h
  | rd => exact read_bounds f s h

/-- `ll_read` preserves `cursor ≤ validCount`. -/
theorem read_cursor (f : LLFile) (s : LL) (h : s.cur_rec ≤ s.num_recs) :
    (ll_read f s).2.cur_rec ≤ (ll_read f s).2.num_recs := by
  unfold ll_read
  by_cases c1 : s.fd_ok = false
  · rw [if_pos c1]; exact h
  · rw [if_neg c1]
    have hpl : (preload f s).cur_rec ≤ (preload f s).num_recs := by
      unfold preload
      by_cases c : s.buf_start = 0 ∧ s.num_recs = 0
      · rw [if_pos c]
        show (0 : Int) ≤ (ll_reload f s).1
        exact (reload_fst_bounds f s).1
      · rw [if_neg c]; exact h
    by_cases c2 : (preload f s).cur_rec = (preload f s).num_recs
    · rw [if_pos c2]
      by_cases c3 : (ll_reload f (preload f s)).1 = 0
      · rw [if_pos c3]
        show (0 : Int) ≤ (ll_reload f (preload f s)).1
        exact (reload_fst_bounds f _).1
      · rw [if_neg c3]
        show (0 : Int) + 1 ≤ (ll_reload f (preload f s)).1
        have hb := (reload_fst_bounds f (preload f s)).1
        have hc3 : (ll_reload f (preload f s)).1 ≠ 0 := c3
        omega
    · rw [if_neg c2]
      show (preload f s).cur_rec + 1 ≤ (preload f s).num_recs
      have hc2 : (preload f s).cur_rec ≠ (preload f s).num_recs := c2
      omega

/-- Under `SlotOk`, a valid window slot is exactly the corresponding file
record relative to the last load offset. -/
theorem slot_eq_fileRec (f : LLFile) (s : LL) (h : SlotOk f s) (j : Nat)
    (hj : j < s.num_recs.toNat) :
    slotBytes s j = fileRec f (s.loadPos / LLSIZE + j) := by
  obtain ⟨hal, hsl⟩ := h
  have hpos0 : 0 < s.num_recs := by omega
  have hdvd : s.loadPos % LLSIZE = 0 := hal hpos0
  unfold slotBytes fileRec
  apply List.map_congr_left
  intro k hk
  have hk2 : k < LLSIZE := List.mem_range.mp hk
  rw [hsl j hj k hk2]
  congr 1
  simp only [LLSIZE] at hdvd ⊢
  omega

/-- A successful `ll_read` hands out exactly the file record at index
`loadPos / LLSIZE + cursor-at-yield`. -/
theorem read_some_eq (f : LLFile) (s : LL) (bs : List Nat) (s2 : LL)
    (hinv : Inv f s) (hc0 : 0 ≤ s.cur_rec) (hcn : s.cur_rec ≤ s.num_recs)
    (h : ll_read f s = (some bs, s2)) :
    bs = fileRec f (s2.loadPos / LLSIZE + (s2.cur_rec - 1).toNat) := by
  unfold ll_read at h
  by_cases c1 : s.fd_ok = false
  · rw [if_pos c1] at h
    have h1 : (none : Option (List Nat)) = some bs := congrArg Prod.fst h
    exact absurd h1 (by simp)
  · rw [if_neg c1] at h
    have hplInv : Inv f (preload f s) := preload_inv f s hinv
    by_cases c2 : (preload f s).cur_rec = (preload f s).num_recs
    · rw [if_pos c2] at h
      by_cases c3 : (ll_reload f (preload f s)).1 = 0
      · rw [if_pos c3] at h
        have h1 : (none : Option (List Nat)) = some bs := congrArg Prod.fst h
        exact absurd h1 (by simp)
      · rw [if_neg c3] at h
        have hSlot : SlotOk f (ll_reload f (preload f s)).2 :=
          (reload_inv f _ hplInv.1).2
        have hnum0 : 0 < (ll_reload f (preload f s)).2.num_recs.toNat := by
          have hb := (reload_fst_bounds f (preload f s)).1
          have hc3 : (ll_reload f (preload f s)).1 ≠ 0 := c3
          have he : (ll_reload f (preload f s)).2.num_recs
              = (ll_reload f (preload f s)).1 := rfl
          omega
        have hbs : slotBytes (ll_reload f (preload f s)).2
            ((ll_reload f (preload f s)).2.cur_rec.toNat) = bs :=
          Option.some.inj (congrArg Prod.fst h)
        have hs2 : ({ (ll_reload f (preload f s)).2 with
            cur_rec := (ll_reload f (preload f s)).2.cur_rec + 1 } : LL) = s2 :=
          congrArg Prod.snd h
        rw [← hs2, ← hbs]
        exact slot_eq_fileRec f _ hSlot 0 hnum0
    · rw [if_neg c2] at h
      have hbs : slotBytes (preload f s) ((preload f s).cur_rec.toNat) = bs :=
        Option.some.inj (congrArg Prod.fst h)
      have hs2 : ({ (preload f s) with
          cur_rec := (preload f s).cur_rec + 1 } : LL) = s2 :=
        congrArg Prod.snd h
      have hplc : 0 ≤ (preload f s).cur_rec ∧
          (preload f s).cur_rec ≤ (preload f s).num_recs := by
        unfold preload
        by_cases c : s.buf_start = 0 ∧ s.num_recs = 0
        · rw [if_pos c]
          exact ⟨le_refl 0, (reload_fst_bounds f s).1⟩
        · rw [if_neg c]; exact ⟨hc0, hcn⟩
      have hj : (preload f s).cur_rec.toNat < (preload f s).num_recs.toNat := by
        have h1 := hplc.1
        have h2 := hplc.2
        have hne : (preload f s).cur_rec ≠ (preload f s).num_recs := c2
        omega
      rw [← hs2, ← hbs]
      have hc : ((preload f s).cur_rec + 1) - 1 = (preload f s).cur_rec := by ring
      show slotBytes (preload f s) ((preload f s).cur_rec.toNat)
        = fileRec f ((preload f s).loadPos / LLSIZE
            + (((preload f s).cur_rec + 1) - 1).toNat)
      rw [hc]
      exact slot_eq_fileRec f _ hplInv.2 _ hj

/-- C2 (amended): in every state reachable by open, seek and readNext,
window slot `j` (for `0 ≤ j < validCount`) holds the file record with
logical index `loadPos / LLSIZE + j`, where `loadPos` is the byte offset
at which the window was last loaded — this offset equals
`buf_start * LLSIZE` after a seek-triggered reload but `buf_start` goes
stale after a readNext-triggered page-crossing reload — and a successful
readNext with an in-range cursor yields exactly the file record at
`loadPos / LLSIZE + cursor-at-yield`. -/
theorem C2_window_contents :
    (∀ (f : LLFile) (ops : List LOp), Inv f (runTrace f ops)) ∧
    (∀ (f : LLFile) (s : LL) (bs : List Nat) (s2 : LL),
      Inv f s → 0 ≤ s.cur_rec → s.cur_rec ≤ s.num_recs →
      ll_read f s = (some bs, s2) →
      bs = fileRec f (s2.loadPos / LLSIZE + (s2.cur_rec - 1).toNat)) :=
  ⟨trace_inv, read_some_eq⟩

set_option maxRecDepth 40000 in
/-- Witness for C2 (amended): the one-record file, first read after
open. -/
theorem C2_window_contents_w :
    Inv oneRec (runTrace oneRec [LOp.rd]) ∧
    fileRec oneRec 0 = fileRec oneRec
      ((ll_read oneRec (ll_open true)).2.loadPos / LLSIZE
        + ((ll_read oneRec (ll_open true)).2.cur_rec - 1).toNat) := by
  constructor
  · exact C2_window_contents.1 oneRec [LOp.rd]
  · refine C2_window_contents.2 oneRec (ll_open true) (fileRec oneRec 0)
      ((ll_read oneRec (ll_open true)).2)
      (C2_window_contents.1 oneRec []) (by decide) (by decide) ?_
    have e1 : (ll_read oneRec (ll_open true)).1 = some (fileRec oneRec 0) := by
      decide
    exact Prod.ext_iff.mpr ⟨e1, rfl⟩

/-- C3 (amended): `0 ≤ cursor`, `0 ≤ validCount ≤ capacity` hold in every
reachable state, and `cursor ≤ validCount` holds after open and is
preserved by every readNext (and by the reloads it triggers); but a seek
into a partially filled final page can set `cursor` strictly beyond
`validCount`, after which readNext hands out stale buffer contents
instead of following the end-of-data rule. -/
theorem C3_cursor_bounds :
    (∀ (f : LLFile) (ops : List LOp), Bounds (runTrace f ops)) ∧
    (∀ (f : LLFile) (s : LL), s.cur_rec ≤ s.num_recs →
      (ll_read f s).2.cur_rec ≤ (ll_read f s).2.num_recs) ∧
    (ll_open true).cur_rec ≤ (ll_open true).num_recs :=
  ⟨trace_bounds, read_cursor, by decide⟩

/-- Witness for C3 (amended): a one-step trace and a read on the empty
file. -/
theorem C3_cursor_bounds_w :
    Bounds (runTrace emptyFile [LOp.rd]) ∧
    (ll_read emptyFile (ll_open true)).2.cur_rec
      ≤ (ll_read emptyFile (ll_open true)).2.num_recs :=
  ⟨C3_cursor_bounds.1 emptyFile [LOp.rd],
   C3_cursor_bounds.2.1 emptyFile (ll_open true) (by decide)⟩

/-- A reload with less than one record left before end of file returns 0
and leaves the offset at end of file. -/
theorem reload_small (f : LLFile) (s : LL) (h : f.len - s.pos < LLSIZE) :
    (ll_reload f s).1 = 0 ∧ f.len - (ll_reload f s).2.pos = 0 := by
  have ha : readAmt f s = f.len - s.pos := by
    unfold readAmt
    apply min_eq_right
    have hc : LLSIZE ≤ NRECS * LLSIZE := by
      simp only [NRECS, LLSIZE]
      omega
    omega
  have h0 : readAmt f s / LLSIZE = 0 := by
    apply Nat.div_eq_of_lt
    omega
  have hf : (ll_reload f s).1 = 0 := by
    rw [reload_fst_eq, h0]
    rfl
  refine ⟨hf, ?_⟩
  show f.len - (s.pos + readAmt f s) = 0
  omega

/-- A reload exactly at end of file transfers nothing: offset and buffer
are untouched. -/
theorem reload_eof (f : LLFile) (s : LL) (h : f.len - s.pos = 0) :
    (ll_reload f s).2.pos = s.pos ∧ (∀ i, (ll_reload f s).2.buf i = s.buf i) := by
  have ha : readAmt f s = 0 := by
    unfold readAmt
    rw [h]
    exact min_eq_right (Nat.zero_le _)
  constructor
  · show s.pos + readAmt f s = s.pos
    omega
  · intro i
    show (if i < readAmt f s then f.byte (s.pos + i) else s.buf i) = s.buf i
    rw [ha]
    exact if_neg (Nat.not_lt_zero i)

/-- A read with the window exhausted and less than one record left in the
file returns `none` and leaves the store at end of file with an empty
window. -/
theorem read_past_end (f : LLFile) (s : LL)
    (hfd : s.fd_ok = true) (hx : s.cur_rec = s.num_recs)
    (heof : f.len - s.pos < LLSIZE) :
    (ll_read f s).1 = none ∧
    (ll_read f s).2.num_recs = 0 ∧
    (ll_read f s).2.cur_rec = 0 ∧
    f.len - (ll_read f s).2.pos = 0 ∧
    (ll_read f s).2.fd_ok = true := by
  have c1 : ¬ s.fd_ok = false := by simp [hfd]
  unfold ll_read
  rw [if_neg c1]
  have hpl : (preload f s).cur_rec = (preload f s).num_recs ∧
      f.len - (preload f s).pos < LLSIZE ∧ (preload f s).fd_ok = true := by
    unfold preload
    by_cases c : s.buf_start = 0 ∧ s.num_recs = 0
    · rw [if_pos c]
      have hsm := reload_small f s heof
      refine ⟨?_, ?_, hfd⟩
      · show (0 : Int) = (ll_reload f s).1
        exact hsm.1.symm
      · have h2 := hsm.2
        have hL : (0 : Nat) < LLSIZE := by decide
        omega
    · rw [if_neg c]
      exact ⟨hx, heof, hfd⟩
  obtain ⟨hc, he, hf2⟩ := hpl
  rw [if_pos hc]
  have hsm2 := reload_small f (preload f s) he
  rw [if_pos hsm2.1]
  exact ⟨rfl, hsm2.1, rfl, hsm2.2, hf2⟩

/-- Reading at exact end of file with an empty window returns `none` and
changes nothing observable; only the read counter advances. -/
theorem read_at_eof_stable (f : LLFile) (s : LL)
    (hfd : s.fd_ok = true) (hnum : s.num_recs = 0) (hcur : s.cur_rec = 0)
    (heof : f.len - s.pos = 0) :
    (ll_read f s).1 = none ∧
    (ll_read f s).2.num_recs = 0 ∧
    (ll_read f s).2.cur_rec = 0 ∧
    (ll_read f s).2.pos = s.pos ∧
    (ll_read f s).2.buf_start = s.buf_start ∧
    (ll_read f s).2.fd_ok = true ∧
    (∀ i, (ll_read f s).2.buf i = s.buf i) ∧
    s.nReads < (ll_read f s).2.nReads := by
  have c1 : ¬ s.fd_ok = false := by simp [hfd]
  have hlt : f.len - s.pos < LLSIZE := by
    have hL : (0 : Nat) < LLSIZE := by decide
    omega
  unfold ll_read preload
  rw [if_neg c1]
  by_cases c : s.buf_start = 0 ∧ s.num_recs = 0
  · rw [if_pos c]
    have hsm1 := reload_small f s hlt
    have hef1 := reload_eof f s heof
    have heof1 : f.len - (ll_reload f s).2.pos = 0 := by
      rw [hef1.1]
      exact heof
    have hlt1 : f.len - (ll_reload f s).2.pos < LLSIZE := by
      have hL : (0 : Nat) < LLSIZE := by decide
      omega
    rw [if_pos (show (ll_reload f s).2.cur_rec = (ll_reload f s).2.num_recs
      from hsm1.1.symm)]
    have hsm2 := reload_small f (ll_reload f s).2 hlt1
    have hef2 := reload_eof f (ll_reload f s).2 heof1
    rw [if_pos hsm2.1]
    refine ⟨rfl, hsm2.1, rfl, ?_, rfl, hfd, ?_, ?_⟩
    · rw [hef2.1, hef1.1]
    · intro i
      rw [hef2.2 i, hef1.2 i]
    · show s.nReads < s.nReads + 1 + 1
      omega
  · rw [if_neg c]
    have hx : s.cur_rec = s.num_recs := by rw [hcur, hnum]
    rw [if_pos hx]
    have hsm := reload_small f s hlt
    have hef := reload_eof f s heof
    rw [if_pos hsm.1]
    refine ⟨rfl, hsm.1, rfl, hef.1, rfl, hfd, hef.2, ?_⟩
    show s.nReads < s.nReads + 1
    omega

/-- C7 (amended): once a readNext exhausts the file (its reload yields
zero records), that call and every later one return `none` — never an
error — and later calls leave the observable state (descriptor flag,
window bookkeeping, file offset, buffer contents) unchanged; but each
later call still issues one or two `read(2)` calls that transfer zero
bytes, so "without issuing further disk reads" does not hold. -/
theorem C7_after_eof (f : LLFile) (s : LL)
    (hfd : s.fd_ok = true) (hx : s.cur_rec = s.num_recs)
    (heof : f.len - s.pos < LLSIZE) :
    (ll_read f s).1 = none ∧
    (ll_read f ((ll_read f s).2)).1 = none ∧
    obs ((ll_read f ((ll_read f s).2)).2) = obs ((ll_read f s).2) ∧
    (∀ i, (ll_read f ((ll_read f s).2)).2.buf i = (ll_read f s).2.buf i) ∧
    (ll_read f s).2.nReads < (ll_read f ((ll_read f s).2)).2.nReads := by
  obtain ⟨a1, a2, a3, a4, a5⟩ := read_past_end f s hfd hx heof
  obtain ⟨b1, b2, b3, b4, b5, b6, b7, b8⟩ :=
    read_at_eof_stable f ((ll_read f s).2) a5 a2 a3 a4
  refine ⟨a1, b1, ?_, b7, b8⟩
  unfold obs
  rw [b2, b3, b4, b5, b6, a2, a3, a5]

/-- Witness for C7 (amended): the empty file right after open. -/
theorem C7_after_eof_w :
    (ll_read emptyFile (ll_open true)).1 = none ∧
    (ll_read emptyFile ((ll_read emptyFile (ll_open true)).2)).1 = none ∧
    obs ((ll_read emptyFile ((ll_read emptyFile (ll_open true)).2)).2)
      = obs ((ll_read emptyFile (ll_open true)).2) ∧
    (∀ i, (ll_read emptyFile ((ll_read emptyFile (ll_open true)).2)).2.buf i
      = (ll_read emptyFile (ll_open true)).2.buf i) ∧
    (ll_read emptyFile (ll_open true)).2.nReads
      < (ll_read emptyFile ((ll_read emptyFile (ll_open true)).2)).2.nReads :=
  C7_after_eof emptyFile (ll_open true) rfl rfl (by decide)

end Alastlog
